import Mathlib

/-!
Shallow embedding of the File Vault core of `src/app.py` (a Flask document
vault).  The filesystem directories `uploads/` and `metadata/` are modelled
as association lists with unique names; JSON sidecar files are modelled as
`Option FileMeta`, where `none` stands for an entry whose JSON fails to
parse.  Each Flask view function becomes a pure function from the session
user, the request data and the vault state to a result and a new state.
-/

namespace Vault

/-- Raw blob content (`uploads/` file bytes). -/
abbrev Bytes := List Nat

/-- The parsed content of one metadata sidecar file, as written by
`save_file_metadata` in `src/app.py` (fields `filename`, `original_filename`,
`user_email`, `upload_date`, `size`). -/
structure FileMeta where
  filename : String
  original_filename : String
  user_email : String
  upload_date : String
  size : Nat
deriving Repr, DecidableEq

/-- A metadata directory entry's content: `some m` if the JSON parses to a
record with the expected fields, `none` if `json.load` would raise. -/
abbrev MetaContent := Option FileMeta

/-- The mutable state of the vault: the `uploads/` directory (storage key to
bytes) and the `metadata/` directory (file name to sidecar content), each as
an association list in directory-enumeration order. -/
structure VaultState where
  blobs : List (String × Bytes)
  metaDir : List (String × MetaContent)
deriving Repr, DecidableEq

/-- The session user as stored by `auth_callback`: `preferred_username`
(email) and the final `roles` list. -/
structure User where
  preferred_username : String
  roles : List String
deriving Repr, DecidableEq

/-- Look up a name in a directory (first match). -/
def getEntry : List (String × α) → String → Option α
  | [], _ => none
  | (n, v) :: t, k => if n = k then some v else getEntry t k

/-- Write a file: overwrite the existing entry in place, otherwise append.
Keeps names unique when they were unique. -/
def setEntry : List (String × α) → String → α → List (String × α)
  | [], k, v => [(k, v)]
  | (n, w) :: t, k, v => if n = k then (k, v) :: t else (n, w) :: setEntry t k v

/-- Remove a file (`os.remove`): drop every entry of that name.  A real
directory holds at most one file per name, so on the states the operations
build this is exactly the removal of that one file. -/
def delEntry (l : List (String × α)) (k : String) : List (String × α) :=
  l.filter (fun p => p.1 ≠ k)

/- ### String primitives over `List Char` (Python string semantics; written
over the character list so that terms evaluate by kernel reduction) -/

/-- `leadsWith needle hay`: `needle` is an initial run of `hay`. -/
def leadsWith : List Char → List Char → Bool
  | [], _ => true
  | _ :: _, [] => false
  | a :: as, b :: bs => a == b && leadsWith as bs

/-- Python `str.lower()` for ASCII strings. -/
def strLower (s : String) : String := String.mk (s.data.map Char.toLower)

/-- Python `email.split("@")[0]`: the characters before the first `'@'`. -/
def localPart (email : String) : String :=
  String.mk (email.data.takeWhile (fun c => c ≠ '@'))

/-- Code-point lexicographic `<` on character lists (Python string `<`). -/
def listLt : List Char → List Char → Bool
  | [], [] => false
  | [], _ :: _ => true
  | _ :: _, [] => false
  | a :: as, b :: bs => decide (a < b) || (a == b && listLt as bs)

/-- Python string `<`. -/
def strLt (a b : String) : Bool := listLt a.data b.data

/-- Python `s.endswith(suf)`. -/
def strEndsWith (s suf : String) : Bool := leadsWith suf.data.reverse s.data.reverse

/-- `hasSub needle hay`: `needle` occurs contiguously in `hay`. -/
def hasSub (needle : List Char) : List Char → Bool
  | [] => needle.isEmpty
  | c :: t => leadsWith needle (c :: t) || hasSub needle t

/-- Python `needle in hay` on strings. -/
def strContains (hay needle : String) : Bool := hasSub needle.data hay.data

/- ### Roles and policy helpers (`src/app.py` lines 34-60) -/

/-- `ADMIN_ROLE = "Game.Lead.Admin"` (line 35). -/
def ADMIN_ROLE : String := "Game.Lead.Admin"

/-- `VIEWER_ROLE = "Game.Tester.Player"` (line 36). -/
def VIEWER_ROLE : String := "Game.Tester.Player"

/-- `get_user_roles` (line 48): the `roles` list of the session user. -/
def get_user_roles (u : User) : List String := u.roles

/-- `is_admin` (line 52). -/
def is_admin (u : User) : Bool := (get_user_roles u).contains ADMIN_ROLE

/-- `is_viewer` (line 57). -/
def is_viewer (u : User) : Bool :=
  (get_user_roles u).contains VIEWER_ROLE || (get_user_roles u).contains ADMIN_ROLE

/- ### Filename helpers (`src/app.py` lines 38-39 and 118-126) -/

/-- `ALLOWED_EXTENSIONS` (line 25). -/
def ALLOWED_EXTENSIONS : List String := ["txt", "pdf", "doc", "docx", "png", "jpg", "jpeg"]

/-- `MAX_FILE_SIZE = 16 * 1024 * 1024` (line 26). -/
def MAX_FILE_SIZE : Nat := 16 * 1024 * 1024

/-- The characters after the last `'.'`: Python `filename.rsplit('.', 1)[1]`
for a name that contains a dot. -/
def extOf (filename : String) : String :=
  String.mk ((filename.data.reverse.takeWhile (fun c => c ≠ '.')).reverse)

/-- `allowed_file` (line 38): the name contains a dot and its last extension,
lowercased, is in `ALLOWED_EXTENSIONS`. -/
def allowed_file (filename : String) : Bool :=
  filename.data.contains '.' && ALLOWED_EXTENSIONS.contains (strLower (extOf filename))

/-- `is_image` (line 118). -/
def is_image (filename : String) : Bool :=
  let ext := if filename.data.contains '.' then strLower (extOf filename) else ""
  ["png", "jpg", "jpeg"].contains ext

/-- `is_pdf` (line 123). -/
def is_pdf (filename : String) : Bool :=
  let ext := if filename.data.contains '.' then strLower (extOf filename) else ""
  ext == "pdf"

/- ### Model of `werkzeug.utils.secure_filename` (external dependency),
restricted to ASCII input: path separators become spaces, whitespace runs
become a single underscore, characters outside `[A-Za-z0-9_.-]` are dropped,
then leading and trailing `'.'`/`'_'` are stripped. -/

/-- Characters `secure_filename` keeps. -/
def keptChar (c : Char) : Bool :=
  c.isAlpha || c.isDigit || c == '_' || c == '.' || c == '-'

/-- Python `str.split()`: split on whitespace runs, discarding empty pieces. -/
def splitWsAux : List Char → List Char → List (List Char)
  | [], cur => if cur.isEmpty then [] else [cur.reverse]
  | c :: t, cur =>
    if c == ' ' || c == '\t' || c == '\n' || c == '\r' then
      if cur.isEmpty then splitWsAux t [] else cur.reverse :: splitWsAux t []
    else splitWsAux t (c :: cur)

/-- Python `"_".join(pieces)`. -/
def joinUnderscore : List (List Char) → List Char
  | [] => []
  | [x] => x
  | x :: y :: t => x ++ '_' :: joinUnderscore (y :: t)

/-- Strip leading and trailing `'.'` and `'_'` (Python `.strip("._")`). -/
def stripDotUnderscore (l : List Char) : List Char :=
  ((l.dropWhile (fun c => c == '.' || c == '_')).reverse.dropWhile
    (fun c => c == '.' || c == '_')).reverse

/-- Model of `werkzeug.utils.secure_filename` for ASCII filenames. -/
def secure_filename (name : String) : String :=
  let noSep := name.data.map (fun c => if c == '/' then ' ' else c)
  let joined := joinUnderscore (splitWsAux noSep [])
  String.mk (stripDotUnderscore (joined.filter keptChar))

/- ### `auth_callback` role assignment (`src/app.py` lines 644-658) -/

/-- The role list `auth_callback` stores in the session, from the token's
`preferred_username` and `roles` claims: an email containing the hardcoded
address is forced to `["Game.Lead.Admin"]`; an empty role list defaults to
`["Game.Tester.Player"]`; otherwise the token roles are kept. -/
def authAssignRoles (preferred_username : String) (tokenRoles : List String) : List String :=
  let user_email := strLower preferred_username
  if strContains user_email "shilpa.sureshkumar@outlook.com" then
    ["Game.Lead.Admin"]
  else if tokenRoles.isEmpty then
    ["Game.Tester.Player"]
  else
    tokenRoles

/- ### Metadata store helpers (`src/app.py` lines 62-100) -/

/-- `get_file_metadata` (line 62): read `metadata/<key>.json`.  `none` when
the sidecar file is absent; `some none` when it exists but `json.load` would
raise (uncaught there); `some (some m)` when it parses. -/
def get_file_metadata (s : VaultState) (key : String) : Option MetaContent :=
  getEntry s.metaDir (key ++ ".json")

/-- `save_file_metadata` (line 70): build the record (reading the blob's size
from the uploads directory, as `os.path.getsize` does) and overwrite
`metadata/<key>.json`. -/
def save_file_metadata (s : VaultState) (key user_email original_filename nowIso : String) :
    VaultState :=
  let m : FileMeta :=
    { filename := key, original_filename := original_filename, user_email := user_email,
      upload_date := nowIso, size := ((getEntry s.blobs key).getD []).length }
  { s with metaDir := setEntry s.metaDir (key ++ ".json") (some m) }

/-- Stable insertion of a record into a list sorted by `upload_date`
descending: the record moves past entries with a strictly later date and
stops before the first entry whose date is not later. -/
def insDesc (x : FileMeta) : List FileMeta → List FileMeta
  | [] => [x]
  | y :: ys => if strLt x.upload_date y.upload_date then y :: insDesc x ys else x :: y :: ys

/-- Python's stable `list.sort(key=..., reverse=True)` on `upload_date`:
descending, ties keeping input (directory-enumeration) order. -/
def sortDateDesc : List FileMeta → List FileMeta
  | [] => []
  | x :: xs => insDesc x (sortDateDesc xs)

/-- The records parsed from the metadata directory, in enumeration order:
names not ending in `.json` are skipped by the filter and entries whose JSON
raises are skipped by the `except: continue`. -/
def parsedRecords (metaDir : List (String × MetaContent)) : List FileMeta :=
  metaDir.filterMap (fun p => if strEndsWith p.1 ".json" then p.2 else none)

/-- `get_all_files` (line 84): parse every `.json` sidecar, skipping entries
that fail to parse, then sort by `upload_date` newest first. -/
def get_all_files (s : VaultState) : List FileMeta :=
  sortDateDesc (parsedRecords s.metaDir)

/- ### The view functions (`src/app.py` lines 128-601) -/

/-- Result of the `home` route's file listing (lines 128-136): the login page
when no session user, otherwise the page built over `get_all_files()` for
every authenticated user, admin or not. -/
inductive ListResult where
  | loginPage : ListResult
  | page : List FileMeta → ListResult
deriving Repr, DecidableEq

/-- The `home` route's listing behaviour (lines 128-136). -/
def homeList (sessionUser : Option User) (s : VaultState) : ListResult :=
  match sessionUser with
  | none => .loginPage
  | some _ => .page (get_all_files s)

/-- Result of `upload_file` (lines 513-545).  `ok key` is the success
redirect, with the storage key the upload chose (exposed by the embedding;
the route itself redirects home). -/
inductive UploadResult where
  | authRedirect : UploadResult
  | authError : UploadResult
  | noFilePart : UploadResult
  | emptyFilename : UploadResult
  | invalidType : UploadResult
  | ok : String → UploadResult
deriving Repr, DecidableEq

/-- The storage key built at lines 533-535:
`{email local part}_{timestamp}_{secure_filename(name)}`. -/
def uploadKey (preferred_username nowStamp fname : String) : String :=
  localPart preferred_username ++ "_" ++ nowStamp ++ "_" ++ secure_filename fname

/-- `upload_file` (lines 513-545).  `reqFile` is `request.files['file']` as
`(claimed filename, content bytes)`; `nowStamp` and `nowIso` are the two
clock reads (`strftime` at line 534, `isoformat` at line 76). -/
def uploadFile (sessionUser : Option User) (reqFile : Option (String × Bytes))
    (nowStamp nowIso : String) (s : VaultState) : UploadResult × VaultState :=
  match sessionUser with
  | none => (.authRedirect, s)
  | some u =>
    if is_admin u then
      match reqFile with
      | none => (.noFilePart, s)
      | some (fname, content) =>
        if fname = "" then (.emptyFilename, s)
        else if allowed_file fname then
          let original_filename := secure_filename fname
          let key := uploadKey u.preferred_username nowStamp fname
          let s1 : VaultState := { s with blobs := setEntry s.blobs key content }
          (.ok key, save_file_metadata s1 key u.preferred_username original_filename nowIso)
        else (.invalidType, s)
    else (.authError, s)

/-- Result of `download_file` (lines 547-560): `stream content name` is
`send_file(..., as_attachment=True, download_name=...)`; `crash` is the
uncaught `json.load` exception on a damaged sidecar. -/
inductive DlResult where
  | authRedirect : DlResult
  | notFound : DlResult
  | crash : DlResult
  | stream : Bytes → String → DlResult
deriving Repr, DecidableEq

/-- `download_file` (lines 547-560): any authenticated user; look up the
sidecar, then serve the blob with `original_filename` as the download name. -/
def downloadFile (sessionUser : Option User) (key : String) (s : VaultState) : DlResult :=
  match sessionUser with
  | none => .authRedirect
  | some _ =>
    match get_file_metadata s key with
    | none => .notFound
    | some none => .crash
    | some (some m) =>
      match getEntry s.blobs key with
      | none => .notFound
      | some content => .stream content m.original_filename

/-- Content type the framework infers when `send_file` serves a path without
an explicit mimetype (`mimetypes.guess_type` on the storage filename); only
the extensions this vault can store are mapped. -/
def guessMime (filename : String) : String :=
  let ext := if filename.data.contains '.' then strLower (extOf filename) else ""
  if ext = "png" then "image/png"
  else if ext = "jpg" then "image/jpeg"
  else if ext = "jpeg" then "image/jpeg"
  else if ext = "pdf" then "application/pdf"
  else if ext = "txt" then "text/plain"
  else if ext = "doc" then "application/msword"
  else if ext = "docx" then
    "application/vnd.openxmlformats-officedocument.wordprocessingml.document"
  else "application/octet-stream"

/-- Result of `preview_file` (lines 562-575): `stream content mime` is
`send_file(filepath)` with the framework's inferred content type. -/
inductive PvResult where
  | authRedirect : PvResult
  | notFound : PvResult
  | crash : PvResult
  | stream : Bytes → String → PvResult
deriving Repr, DecidableEq

/-- `preview_file` (lines 562-575): any authenticated user; identical lookup
to download, served inline with an inferred content type.  The route checks
no extension. -/
def previewFile (sessionUser : Option User) (key : String) (s : VaultState) : PvResult :=
  match sessionUser with
  | none => .authRedirect
  | some _ =>
    match get_file_metadata s key with
    | none => .notFound
    | some none => .crash
    | some (some _) =>
      match getEntry s.blobs key with
      | none => .notFound
      | some content => .stream content (guessMime key)

/-- Result of `delete_file` (lines 577-601). -/
inductive DelResult where
  | notAuthenticated : DelResult
  | authError : DelResult
  | notFound : DelResult
  | crash : DelResult
  | success : DelResult
deriving Repr, DecidableEq

/-- `delete_file` (lines 577-601): admin only; 404 when the sidecar is
absent; each removal is guarded by `os.path.exists`, then success.  (The
`except` branch at line 600 catches `os.remove` faults, which the pure model
cannot produce.) -/
def deleteFile (sessionUser : Option User) (key : String) (s : VaultState) :
    DelResult × VaultState :=
  match sessionUser with
  | none => (.notAuthenticated, s)
  | some u =>
    if is_admin u then
      match get_file_metadata s key with
      | none => (.notFound, s)
      | some none => (.crash, s)
      | some (some _) =>
        let s1 : VaultState :=
          { s with blobs :=
              if (getEntry s.blobs key).isSome then delEntry s.blobs key else s.blobs }
        let s2 : VaultState :=
          { s1 with metaDir :=
              if (getEntry s1.metaDir (key ++ ".json")).isSome then
                delEntry s1.metaDir (key ++ ".json")
              else s1.metaDir }
        (.success, s2)
    else (.authError, s)

/- ### Helper lemmas -/

theorem getEntry_setEntry_self (l : List (String × α)) (k : String) (v : α) :
    getEntry (setEntry l k v) k = some v := by
  induction l with
  | nil => simp [setEntry, getEntry]
  | cons p t ih =>
    by_cases h : p.1 = k
    · simp [setEntry, getEntry, h]
    · simp only [setEntry, getEntry]
      rw [if_neg h, getEntry, if_neg h, ih]

theorem getEntry_delEntry_self (l : List (String × α)) (k : String) :
    getEntry (delEntry l k) k = none := by
  induction l with
  | nil => simp [delEntry, getEntry]
  | cons p t ih =>
    by_cases h : p.1 = k
    · simpa [delEntry, h] using ih
    · simpa [delEntry, getEntry, h] using ih

theorem listLt_asymm : ∀ a b : List Char, listLt a b = true → listLt b a = false
  | [], [] => by simp [listLt]
  | [], _ :: _ => by simp [listLt]
  | _ :: _, [] => by simp [listLt]
  | a :: as, b :: bs => by
    simp only [listLt, Bool.or_eq_true, Bool.and_eq_true, decide_eq_true_eq, beq_iff_eq,
      Bool.or_eq_false_iff, Bool.and_eq_false_iff, decide_eq_false_iff_not,
      beq_eq_false_iff_ne, ne_eq]
    rintro (hab | ⟨rfl, h⟩)
    · exact ⟨fun hba => absurd hab (lt_asymm hba), Or.inl (fun e => lt_irrefl a (e ▸ hab))⟩
    · exact ⟨lt_irrefl a, Or.inr (listLt_asymm as bs h)⟩

theorem listLt_true_split : ∀ a b c : List Char,
    listLt a c = true → listLt a b = true ∨ listLt b c = true
  | [], _, [] => by simp [listLt]
  | [], [], _ :: _ => by simp [listLt]
  | [], _ :: _, _ :: _ => by simp [listLt]
  | _ :: _, _, [] => by simp [listLt]
  | _ :: _, [], _ :: _ => by simp [listLt]
  | x :: xs, z :: zs, y :: ys => by
    simp only [listLt, Bool.or_eq_true, Bool.and_eq_true, decide_eq_true_eq, beq_iff_eq]
    rintro (hxy | ⟨rfl, h⟩)
    · rcases lt_trichotomy x z with hxz | rfl | hzx
      · exact Or.inl (Or.inl hxz)
      · exact Or.inr (Or.inl hxy)
      · exact Or.inr (Or.inl (lt_trans hzx hxy))
    · rcases lt_trichotomy x z with hxz | rfl | hzx
      · exact Or.inl (Or.inl hxz)
      · rcases listLt_true_split xs zs ys h with h1 | h2
        · exact Or.inl (Or.inr ⟨rfl, h1⟩)
        · exact Or.inr (Or.inr ⟨rfl, h2⟩)
      · exact Or.inr (Or.inl hzx)

theorem strLt_false_trans {x y z : String} (hxy : strLt x y = false)
    (hyz : strLt y z = false) : strLt x z = false := by
  by_contra h
  rcases listLt_true_split x.data y.data z.data (by
      simpa [strLt] using Bool.of_not_eq_false h) with h1 | h2
  · exact absurd hxy (by simp [strLt, h1])
  · exact absurd hyz (by simp [strLt, h2])

theorem strLt_asymm_false {x y : String} (h : strLt x y = true) : strLt y x = false :=
  listLt_asymm x.data y.data h

/-- The order `get_all_files` establishes: a record is never strictly older
(by `upload_date`) than one that follows it. -/
def dOrder (a b : FileMeta) : Prop := strLt a.upload_date b.upload_date = false

theorem insDesc_perm (x : FileMeta) (l : List FileMeta) : (insDesc x l).Perm (x :: l) := by
  induction l with
  | nil => simp [insDesc]
  | cons y ys ih =>
    by_cases h : strLt x.upload_date y.upload_date = true
    · simp only [insDesc, if_pos h]
      exact ((ih.cons y).trans (List.Perm.swap x y ys))
    · simp [insDesc, h]

theorem mem_insDesc {z x : FileMeta} {l : List FileMeta} (h : z ∈ insDesc x l) :
    z = x ∨ z ∈ l := by
  have := (insDesc_perm x l).mem_iff.mp h
  simpa using this

theorem pairwise_insDesc (x : FileMeta) {l : List FileMeta}
    (h : l.Pairwise dOrder) : (insDesc x l).Pairwise dOrder := by
  induction l with
  | nil => simp [insDesc, List.Pairwise]
  | cons y ys ih =>
    rcases List.pairwise_cons.mp h with ⟨hy, hys⟩
    by_cases hlt : strLt x.upload_date y.upload_date = true
    · simp only [insDesc, if_pos hlt]
      refine List.pairwise_cons.mpr ⟨?_, ih hys⟩
      intro z hz
      rcases mem_insDesc hz with rfl | hz'
      · exact strLt_asymm_false hlt
      · exact hy z hz'
    · simp only [insDesc, if_neg hlt]
      refine List.pairwise_cons.mpr ⟨?_, List.pairwise_cons.mpr ⟨hy, hys⟩⟩
      intro z hz
      have hxy : dOrder x y := Bool.of_not_eq_true hlt
      rcases List.mem_cons.mp hz with rfl | hz'
      · exact hxy
      · exact strLt_false_trans hxy (hy z hz')

theorem sortDateDesc_perm (l : List FileMeta) : (sortDateDesc l).Perm l := by
  induction l with
  | nil => simp [sortDateDesc]
  | cons x xs ih =>
    exact (insDesc_perm x (sortDateDesc xs)).trans (ih.cons x)

theorem sortDateDesc_pairwise (l : List FileMeta) : (sortDateDesc l).Pairwise dOrder := by
  induction l with
  | nil => simp [sortDateDesc]
  | cons x xs ih => exact pairwise_insDesc x ih

/-- Insert an element at position `n` of a list (used to speak about a
directory holding one extra entry at an arbitrary place). -/
def insertAt (n : Nat) (x : α) : List α → List α
  | [] => [x]
  | y :: ys =>
    match n with
    | 0 => x :: y :: ys
    | Nat.succ m => y :: insertAt m x ys

theorem filterMap_insertAt_none (f : α → Option β) (x : α) (hx : f x = none) :
    ∀ (n : Nat) (l : List α), (insertAt n x l).filterMap f = l.filterMap f := by
  intro n l
  induction l generalizing n with
  | nil => simp [insertAt, List.filterMap_cons, hx]
  | cons y ys ih =>
    match n with
    | 0 => simp [insertAt, List.filterMap_cons, hx]
    | Nat.succ m => simp [insertAt, List.filterMap_cons, ih m]

/- ### Sample principals and states used to instantiate the theorems -/

/-- An admin principal. -/
def aliceAdmin : User := ⟨"alice@example.com", ["Game.Lead.Admin"]⟩

/-- A viewer principal. -/
def bobViewer : User := ⟨"bob@example.com", ["Game.Tester.Player"]⟩

/-- A principal with a role claim that is neither `Admin` nor `Viewer`. -/
def carolIntern : User := ⟨"carol@example.com", ["Intern"]⟩

/-- A stored record with its blob present. -/
def goodMeta : FileMeta :=
  ⟨"alice_20260101_120000_a.txt", "a.txt", "alice@example.com", "2026-01-01T12:00:00", 1⟩

/-- A state holding `goodMeta` and its blob. -/
def stGood : VaultState :=
  ⟨[("alice_20260101_120000_a.txt", [1])],
   [("alice_20260101_120000_a.txt.json", some goodMeta)]⟩

/- ### C1 -/

/-- C1 fails on the code: `auth_callback` defaults an empty role-claim set to
the Viewer role, and a principal whose only role claim is unrecognized
(`"Intern"`) is served a download rather than denied. -/
theorem C1_counterexample :
    authAssignRoles "bob@example.com" [] = [VIEWER_ROLE] ∧
    is_admin carolIntern = false ∧
    is_viewer carolIntern = false ∧
    downloadFile (some carolIntern) "alice_20260101_120000_a.txt" stGood
      = .stream [1] "a.txt" := by decide

/-- C1 (amended): a principal presenting an empty role-claim set (and an
email without the hardcoded admin address) is assigned the Viewer role at
authentication rather than denied; List, Download and Preview depend only on
having an authenticated session, not on any role; only Upload and Delete are
denied to principals lacking Admin. -/
theorem C1_role_gap_handling (email : String) (u v : User) (k : String) (s : VaultState)
    (f : Option (String × Bytes)) (t1 t2 : String)
    (hmail : strContains (strLower email) "shilpa.sureshkumar@outlook.com" = false)
    (hadm : is_admin u = false) :
    authAssignRoles email [] = [VIEWER_ROLE] ∧
    uploadFile (some u) f t1 t2 s = (.authError, s) ∧
    deleteFile (some u) k s = (.authError, s) ∧
    downloadFile (some u) k s = downloadFile (some v) k s ∧
    previewFile (some u) k s = previewFile (some v) k s ∧
    homeList (some u) s = homeList (some v) s := by
  refine ⟨?_, ?_, ?_, rfl, rfl, rfl⟩
  · simp [authAssignRoles, hmail, VIEWER_ROLE]
  · simp [uploadFile, hadm]
  · simp [deleteFile, hadm]

/-- Instantiation of `C1_role_gap_handling` at concrete inputs. -/
theorem C1_role_gap_handling_witness :
    strContains (strLower "bob@example.com") "shilpa.sureshkumar@outlook.com" = false ∧
    is_admin carolIntern = false ∧
    (authAssignRoles "bob@example.com" [] = [VIEWER_ROLE] ∧
     uploadFile (some carolIntern) none "t" "i" stGood = (.authError, stGood) ∧
     deleteFile (some carolIntern) "k" stGood = (.authError, stGood) ∧
     downloadFile (some carolIntern) "k" stGood = downloadFile (some aliceAdmin) "k" stGood ∧
     previewFile (some carolIntern) "k" stGood = previewFile (some aliceAdmin) "k" stGood ∧
     homeList (some carolIntern) stGood = homeList (some aliceAdmin) stGood) :=
  ⟨by decide, by decide,
   C1_role_gap_handling "bob@example.com" carolIntern aliceAdmin "k" stGood none "t" "i"
     (by decide) (by decide)⟩

/- ### C2 -/

/-- C2 fails on the code: two principals presenting the identical role claim
list `["Game.Tester.Player"]` are assigned different roles depending on the
literal email, and only one of them may upload. -/
theorem C2_counterexample :
    authAssignRoles "shilpa.sureshkumar@outlook.com" ["Game.Tester.Player"]
      = ["Game.Lead.Admin"] ∧
    authAssignRoles "other.person@outlook.com" ["Game.Tester.Player"]
      = ["Game.Tester.Player"] ∧
    is_admin ⟨"shilpa.sureshkumar@outlook.com",
      authAssignRoles "shilpa.sureshkumar@outlook.com" ["Game.Tester.Player"]⟩ = true ∧
    is_admin ⟨"other.person@outlook.com",
      authAssignRoles "other.person@outlook.com" ["Game.Tester.Player"]⟩ = false := by decide

/-- C2 (amended): role assignment branches on the principal's email — any
email whose lowercase form contains `"shilpa.sureshkumar@outlook.com"` is
forced to exactly the Admin role, regardless of the presented claims; for
principals whose emails both lack that substring, identical role claims do
yield identical assigned roles. -/
theorem C2_roles_vs_email (e1 e2 e3 : String) (claims : List String)
    (h1 : strContains (strLower e1) "shilpa.sureshkumar@outlook.com" = false)
    (h2 : strContains (strLower e2) "shilpa.sureshkumar@outlook.com" = false)
    (h3 : strContains (strLower e3) "shilpa.sureshkumar@outlook.com" = true) :
    authAssignRoles e1 claims = authAssignRoles e2 claims ∧
    authAssignRoles e3 claims = [ADMIN_ROLE] := by
  constructor
  · simp [authAssignRoles, h1, h2]
  · simp [authAssignRoles, h3, ADMIN_ROLE]

/-- Instantiation of `C2_roles_vs_email` at concrete inputs. -/
theorem C2_roles_vs_email_witness :
    strContains (strLower "bob@example.com") "shilpa.sureshkumar@outlook.com" = false ∧
    strContains (strLower "carol@example.com") "shilpa.sureshkumar@outlook.com" = false ∧
    strContains (strLower "SHILPA.SureshKumar@Outlook.com")
      "shilpa.sureshkumar@outlook.com" = true ∧
    (authAssignRoles "bob@example.com" ["X"] = authAssignRoles "carol@example.com" ["X"] ∧
     authAssignRoles "SHILPA.SureshKumar@Outlook.com" ["X"] = [ADMIN_ROLE]) :=
  ⟨by decide, by decide, by decide,
   C2_roles_vs_email "bob@example.com" "carol@example.com" "SHILPA.SureshKumar@Outlook.com"
     ["X"] (by decide) (by decide) (by decide)⟩

/- ### C3 -/

/-- C3: for every authenticated principal lacking the Admin role, Upload and
Delete return the authorization error and leave the state — both the
metadata directory and the blob directory — exactly unchanged. -/
theorem C3_nonadmin_upload_delete_frame (u : User) (h : is_admin u = false)
    (f : Option (String × Bytes)) (t1 t2 k : String) (s : VaultState) :
    uploadFile (some u) f t1 t2 s = (.authError, s) ∧
    deleteFile (some u) k s = (.authError, s) := by
  constructor
  · simp [uploadFile, h]
  · simp [deleteFile, h]

/-- Instantiation of `C3_nonadmin_upload_delete_frame` at concrete inputs. -/
theorem C3_nonadmin_upload_delete_frame_witness :
    is_admin bobViewer = false ∧
    (uploadFile (some bobViewer) (some ("report.pdf", [1])) "t" "i" stGood
        = (.authError, stGood) ∧
     deleteFile (some bobViewer) "alice_20260101_120000_a.txt" stGood
        = (.authError, stGood)) :=
  ⟨by decide,
   C3_nonadmin_upload_delete_frame bobViewer (by decide)
     (some ("report.pdf", [1])) "t" "i" "alice_20260101_120000_a.txt" stGood⟩

/- ### C4 -/

/-- The first of two same-tick uploads: admin, `report.pdf`, second-resolution
timestamp `20260101_120000`, empty store. -/
def c4Upload1 : UploadResult × VaultState :=
  uploadFile (some aliceAdmin) (some ("report.pdf", [1, 2, 3]))
    "20260101_120000" "2026-01-01T12:00:00.100000" ⟨[], []⟩

/-- The second upload, same principal, same filename, same timestamp tick. -/
def c4Upload2 : UploadResult × VaultState :=
  uploadFile (some aliceAdmin) (some ("report.pdf", [9, 9]))
    "20260101_120000" "2026-01-01T12:00:00.900000" c4Upload1.2

/-- C4 is violated by the code: key generation has no `Exists` retry, so two
uploads from the same principal with the same filename in the same
second-resolution tick produce the identical storage key, and the second
upload overwrites the first — one blob and one record remain, the first
content `[1,2,3]` is lost. -/
theorem C4_same_tick_key_collision :
    c4Upload1.1 = .ok "alice_20260101_120000_report.pdf" ∧
    c4Upload2.1 = .ok "alice_20260101_120000_report.pdf" ∧
    c4Upload2.2.blobs = [("alice_20260101_120000_report.pdf", [9, 9])] ∧
    c4Upload2.2.metaDir.length = 1 := by decide

/- ### C5 -/

/-- Storage key of a stored `.docx` file. -/
def docxKey : String := "alice_20260101_120000_notes.docx"

/-- Metadata of the stored `.docx` file. -/
def docxMeta : FileMeta :=
  ⟨docxKey, "notes.docx", "alice@example.com", "2026-01-01T12:00:00", 2⟩

/-- A state holding the `.docx` file and its blob. -/
def stDocx : VaultState := ⟨[(docxKey, [7, 7])], [(docxKey ++ ".json", some docxMeta)]⟩

/-- C5 fails on the code: Preview of a stored `.docx` — an extension outside
the previewable subset — returns the blob stream, not an
`UnsupportedPreviewError` (no such outcome exists in the route). -/
theorem C5_counterexample :
    is_image docxKey = false ∧
    is_pdf docxKey = false ∧
    previewFile (some bobViewer) docxKey stDocx
      = .stream [7, 7]
          "application/vnd.openxmlformats-officedocument.wordprocessingml.document" := by
  decide

/-- C5 (amended): the preview route checks no extension — any stored key
whose sidecar parses and whose blob exists is served as a stream with the
framework-inferred content type; the previewable-subset predicates
`is_image`/`is_pdf` gate only the listing page's preview button.  For `.pdf`
keys the inferred type is `application/pdf` and for `.png` keys it is
`image/png`, as the claim's second half states. -/
theorem C5_preview_no_extension_gate (u : User) (k : String) (m : FileMeta) (b : Bytes)
    (s : VaultState)
    (hm : get_file_metadata s k = some (some m))
    (hb : getEntry s.blobs k = some b) :
    previewFile (some u) k s = .stream b (guessMime k) ∧
    (is_pdf k = true → guessMime k = "application/pdf") ∧
    (k.data.contains '.' = true → strLower (extOf k) = "png" →
      guessMime k = "image/png") := by
  refine ⟨?_, ?_, ?_⟩
  · simp [previewFile, hm, hb]
  · intro hp
    by_cases hmem : '.' ∈ k.data
    · have hpdf : strLower (extOf k) = "pdf" := by
        simpa [is_pdf, hmem] using hp
      simp [guessMime, hmem, hpdf]
    · exact absurd hp (by simp [is_pdf, hmem])
  · intro hc hpng
    have hmem : '.' ∈ k.data := by simpa using hc
    simp [guessMime, hmem, hpng]

/-- Storage key of a stored `.png` file. -/
def pngKey : String := "alice_20260101_120000_pic.png"

/-- Metadata of the stored `.png` file. -/
def pngMeta : FileMeta :=
  ⟨pngKey, "pic.png", "alice@example.com", "2026-01-01T12:00:00", 3⟩

/-- A state holding the `.png` file and its blob. -/
def stPng : VaultState := ⟨[(pngKey, [5, 5, 5])], [(pngKey ++ ".json", some pngMeta)]⟩

/-- Instantiation of `C5_preview_no_extension_gate` at a stored `.png`. -/
theorem C5_preview_no_extension_gate_witness :
    get_file_metadata stPng pngKey = some (some pngMeta) ∧
    getEntry stPng.blobs pngKey = some [5, 5, 5] ∧
    (previewFile (some bobViewer) pngKey stPng = .stream [5, 5, 5] (guessMime pngKey) ∧
     (is_pdf pngKey = true → guessMime pngKey = "application/pdf") ∧
     (pngKey.data.contains '.' = true → strLower (extOf pngKey) = "png" →
       guessMime pngKey = "image/png")) :=
  ⟨by decide, by decide,
   C5_preview_no_extension_gate bobViewer pngKey pngMeta [5, 5, 5] stPng
     (by decide) (by decide)⟩

/- ### C6 -/

/-- A record whose blob is absent (metadata-only orphan). -/
def orphanMeta : FileMeta := ⟨"k1.txt", "a.txt", "o@x.com", "2026-01-01T00:00:00", 1⟩

/-- A state with the orphan record and no blobs at all. -/
def stOrphan : VaultState := ⟨[], [("k1.txt.json", some orphanMeta)]⟩

/-- C6 fails on the code: `get_all_files` checks no blob existence, so a
record whose blob is absent is returned by List. -/
theorem C6_counterexample :
    getEntry stOrphan.blobs "k1.txt" = none ∧
    homeList (some bobViewer) stOrphan = .page [orphanMeta] := by decide

/-- C6 (amended): the List result depends only on the metadata directory —
no blob-existence filtering or diagnostic happens, and a record appears in
the listing exactly when its sidecar parses, whether or not its blob
exists. -/
theorem C6_list_ignores_blobs (u : User) (b1 b2 : List (String × Bytes))
    (md : List (String × MetaContent)) :
    homeList (some u) ⟨b1, md⟩ = homeList (some u) ⟨b2, md⟩ ∧
    ∀ m : FileMeta, m ∈ get_all_files ⟨b1, md⟩ ↔ m ∈ parsedRecords md :=
  ⟨rfl, fun _ => (sortDateDesc_perm _).mem_iff⟩

/- ### C7 -/

/-- `stGood` plus one sidecar whose JSON does not parse. -/
def stGoodDamaged : VaultState :=
  ⟨[("alice_20260101_120000_a.txt", [1])],
   [("bad.json", none), ("alice_20260101_120000_a.txt.json", some goodMeta)]⟩

/-- C7's reporting half fails on the code: a store with one damaged sidecar
produces a listing indistinguishable from the same store without it — the
well-formed record is returned (no abort), but nothing about the damaged
entry is counted or reported. -/
theorem C7_counterexample :
    stGoodDamaged ≠ stGood ∧
    homeList (some bobViewer) stGoodDamaged = .page [goodMeta] ∧
    homeList (some bobViewer) stGoodDamaged = homeList (some bobViewer) stGood := by decide

/-- C7 (amended): an unparseable sidecar never aborts listing — inserting a
damaged entry anywhere in the metadata directory leaves the List result
exactly unchanged (so every well-formed record is still returned), and the
result is a permutation of the well-formed records alone; the damaged
entries are silently skipped, not counted or reported. -/
theorem C7_damaged_skipped_silently (u : User) (s : VaultState) (name : String) (n : Nat) :
    homeList (some u) ⟨s.blobs, insertAt n (name, (none : MetaContent)) s.metaDir⟩
      = homeList (some u) s ∧
    (get_all_files s).Perm (parsedRecords s.metaDir) := by
  constructor
  · simp only [homeList, get_all_files, parsedRecords]
    rw [filterMap_insertAt_none
      (fun p : String × MetaContent => if strEndsWith p.1 ".json" then p.2 else none)
      (name, none) (by simp)]
  · exact sortDateDesc_perm _

/- ### C8 -/

/-- C8: for every admin principal and every non-empty, allowed filename and
content within the size limit, Upload followed by Download of the generated
key returns exactly the uploaded bytes, with the sanitized uploaded filename
as the download name. -/
theorem C8_upload_download_roundtrip (u : User) (fname : String) (content : Bytes)
    (t1 t2 : String) (s : VaultState)
    (hadm : is_admin u = true) (hne : fname ≠ "") (hal : allowed_file fname = true)
    (_hsz : content.length ≤ MAX_FILE_SIZE) :
    (uploadFile (some u) (some (fname, content)) t1 t2 s).1
      = .ok (uploadKey u.preferred_username t1 fname) ∧
    downloadFile (some u) (uploadKey u.preferred_username t1 fname)
      (uploadFile (some u) (some (fname, content)) t1 t2 s).2
      = .stream content (secure_filename fname) := by
  have hup : uploadFile (some u) (some (fname, content)) t1 t2 s
      = (.ok (uploadKey u.preferred_username t1 fname),
         ⟨setEntry s.blobs (uploadKey u.preferred_username t1 fname) content,
          setEntry s.metaDir (uploadKey u.preferred_username t1 fname ++ ".json")
            (some ⟨uploadKey u.preferred_username t1 fname, secure_filename fname,
                   u.preferred_username, t2, content.length⟩)⟩) := by
    simp [uploadFile, hadm, hne, hal, save_file_metadata, getEntry_setEntry_self]
  refine ⟨by rw [hup], ?_⟩
  rw [hup]
  simp [downloadFile, get_file_metadata, getEntry_setEntry_self]

/-- Instantiation of `C8_upload_download_roundtrip`: uploading `report.pdf`
with bytes `[1,2,3]` then downloading the returned key yields `[1,2,3]` with
`original_filename = "report.pdf"`. -/
theorem C8_upload_download_roundtrip_witness :
    is_admin aliceAdmin = true ∧
    allowed_file "report.pdf" = true ∧
    ([1, 2, 3] : Bytes).length ≤ MAX_FILE_SIZE ∧
    downloadFile (some aliceAdmin) (uploadKey "alice@example.com" "20260101_120000" "report.pdf")
      (uploadFile (some aliceAdmin) (some ("report.pdf", [1, 2, 3]))
        "20260101_120000" "2026-01-01T12:00:00" ⟨[], []⟩).2
      = .stream [1, 2, 3] "report.pdf" := by
  refine ⟨by decide, by decide, by decide, ?_⟩
  have h := C8_upload_download_roundtrip aliceAdmin "report.pdf" [1, 2, 3]
    "20260101_120000" "2026-01-01T12:00:00" ⟨[], []⟩
    (by decide) (by decide) (by decide) (by decide)
  exact h.2

/- ### C9 -/

/-- First of two records sharing an `upload_date`; its key sorts before the
other's. -/
def tieA : FileMeta := ⟨"a_1_x.txt", "x.txt", "o@x.com", "2026-01-01T00:00:00", 1⟩

/-- Second record with the same `upload_date` and a larger key. -/
def tieB : FileMeta := ⟨"b_1_x.txt", "x.txt", "o@x.com", "2026-01-01T00:00:00", 1⟩

/-- The tied records with the metadata directory enumerating `b` first. -/
def stTieBA : VaultState :=
  ⟨[("a_1_x.txt", [1]), ("b_1_x.txt", [1])],
   [("b_1_x.txt.json", some tieB), ("a_1_x.txt.json", some tieA)]⟩

/-- The same records with the directory enumerating `a` first. -/
def stTieAB : VaultState :=
  ⟨[("a_1_x.txt", [1]), ("b_1_x.txt", [1])],
   [("a_1_x.txt.json", some tieA), ("b_1_x.txt.json", some tieB)]⟩

/-- C9's tie-break fails on the code: for two records with equal
`upload_date`, the stable sort keeps directory-enumeration order, so one
enumeration order puts the larger storage key first — not storage-key
ascending — and the swapped enumeration yields the swapped output, so the
tie order is not deterministic. -/
theorem C9_counterexample :
    tieA.upload_date = tieB.upload_date ∧
    strLt tieA.filename tieB.filename = true ∧
    get_all_files stTieBA = [tieB, tieA] ∧
    get_all_files stTieAB = [tieA, tieB] := by decide

/-- C9 (amended): the listing is a permutation of the parseable records,
sorted by `upload_date` descending (no record is strictly older than a
record after it); ties keep directory-enumeration order rather than being
broken by storage key. -/
theorem C9_sorted_desc_stable (s : VaultState) :
    (get_all_files s).Pairwise dOrder ∧
    (get_all_files s).Perm (parsedRecords s.metaDir) :=
  ⟨sortDateDesc_pairwise _, sortDateDesc_perm _⟩

/- ### C10 -/

/-- C10: when a key's metadata record exists but its blob is already absent,
an admin Delete still returns success, removes the metadata record, and
leaves the blob store untouched — each removal is guarded by an existence
check, so the orphan is cleaned up without an error or partial-failure
report. -/
theorem C10_delete_metadata_orphan (u : User) (k : String) (m : FileMeta) (s : VaultState)
    (hadm : is_admin u = true)
    (hm : get_file_metadata s k = some (some m))
    (hb : getEntry s.blobs k = none) :
    deleteFile (some u) k s = (.success, ⟨s.blobs, delEntry s.metaDir (k ++ ".json")⟩) ∧
    get_file_metadata ⟨s.blobs, delEntry s.metaDir (k ++ ".json")⟩ k = none := by
  have hm' : getEntry s.metaDir (k ++ ".json") = some (some m) := hm
  constructor
  · simp [deleteFile, get_file_metadata, hadm, hm', hb]
  · simpa [get_file_metadata] using getEntry_delEntry_self s.metaDir (k ++ ".json")

/-- Instantiation of `C10_delete_metadata_orphan` at the orphan state. -/
theorem C10_delete_metadata_orphan_witness :
    is_admin aliceAdmin = true ∧
    get_file_metadata stOrphan "k1.txt" = some (some orphanMeta) ∧
    getEntry stOrphan.blobs "k1.txt" = none ∧
    (deleteFile (some aliceAdmin) "k1.txt" stOrphan
        = (.success, ⟨stOrphan.blobs, delEntry stOrphan.metaDir ("k1.txt" ++ ".json")⟩) ∧
     get_file_metadata ⟨stOrphan.blobs, delEntry stOrphan.metaDir ("k1.txt" ++ ".json")⟩
        "k1.txt" = none) :=
  ⟨by decide, by decide, by decide,
   C10_delete_metadata_orphan aliceAdmin "k1.txt" orphanMeta stOrphan
     (by decide) (by decide) (by decide)⟩

end Vault
